import Mathlib

/-!
Shallow embedding of the hh.ru vacancies parser (src/main.py) and proofs of
the specification claims about its ingestion and partitioning engine.

Conventions of the embedding:
* Python dictionaries coming from the upstream JSON API are modelled as
  structures whose fields already carry the defaults that the Python code
  applies via dict.get: for example `Vacancy.id` stands for
  vac.get("id", ""), so a posting with a missing id carries the empty
  string here, exactly as in the code.
* Python datetime values are modelled at day granularity as integers
  (proleptic-Gregorian ordinals, as produced by datetime.toordinal);
  all date arithmetic in the source is whole-day arithmetic, so this is
  exact.  A date window is a pair (start day, end day), both inclusive,
  matching strftime rendering 00:00:00 and 23:59:59 on those days.
* The SQLite table is modelled as a list of rows in insertion order; the
  INSERT OR IGNORE statement on the primary key becomes insertOrIgnore.
* Network fetches are modelled by a function from page index to the
  decoded JSON response.
-/

namespace HHParser

/-- One entry of contacts["phones"]: the four fields read by the code,
each defaulted to the empty string by phone_obj.get. -/
structure Phone where
  country : String := ""
  city : String := ""
  number : String := ""
  comment : String := ""
deriving DecidableEq

/-- The contacts object of a posting; in the source `vac.get("contacts")`
is either a (truthy) object or None, modelled by `Option Contacts` at the
use site.  Fields carry the dict.get defaults. -/
structure Contacts where
  name : String := ""
  email : String := ""
  phones : List Phone := []
deriving DecidableEq

/-- The employer object; `vac.get("employer", {})` collapses an absent key
to an object whose own gets all default, which is the default value of this
structure.  `industries` holds each entry's name field (already defaulted
to "" by industries[0].get("name", "")). -/
structure Employer where
  id : String := ""
  name : Option String := none
  industries : List String := []
deriving DecidableEq

/-- A raw posting as read by save_to_db.  `address` is
`vac.get("address")`: `none` when the key is absent or the value is falsy;
`some c` means the address object is truthy and carries "city" with value
`c` when `c = some s`, and has no (or a falsy) "city" entry when
`c = none`.  `area` is area.get("name") of `vac.get("area", {})`.
`professional_roles` holds each role's name (defaulted to ""). -/
structure Vacancy where
  id : String := ""
  name : String := ""
  alternate_url : String := ""
  employer : Employer := {}
  address : Option (Option String) := none
  area : Option String := none
  contacts : Option Contacts := none
  professional_roles : List String := []
  published_at : String := ""
deriving DecidableEq

/-- A row of the hh_vacancies SQLite table. -/
structure StoredRecord where
  id : String
  vacancy_name : String
  url : String
  employer_id : String
  employer_name : String
  city : String
  contact_name : String
  phones : String
  email : String
  prof_roles : String
  industry : String
  published_at : String
deriving DecidableEq

/-- The literal EXCLUDED_EMPLOYEE_IDS list from the source, duplicates
included. -/
def EXCLUDED_EMPLOYEE_IDS : List Nat := [
  3177, 999442, 9330017, 10871726, 3443127, 2657797, 6153907, 2156474, 1545374,
  2553761, 1498795, 1999994, 5481550, 9579070, 3112459, 10004751, 11842692,
  3089914, 10623824, 9860737, 4263964, 9623282, 2899434, 3094193, 5830512,
  57073, 11056965, 4174021, 10753971, 1729313, 2022372, 5388489, 1740, 10753971,
  5805688, 611692, 4263964, 4856020, 3390849, 5302705, 5547644, 10753971,
  11571595, 11124587, 10321769, 11695543, 4671816, 2732037, 4333013, 11807162,
  2800609, 11807162, 5193393, 1141344, 9330017, 5687059, 3315744]

/-- Models the guard `employer_id and employer_id.isdigit()` together
with `int(employer_id)`: the decimal value when the string is non-empty
and consists of digits only, `none` otherwise. -/
def digitValue (s : String) : Option Nat :=
  if s.data ≠ [] ∧ s.data.all Char.isDigit then
    some (s.data.foldl (fun n c => n * 10 + (c.toNat - 48)) 0)
  else none

/-- The exclusion test of save_to_db:
`int(employer_id) in EXCLUDED_EMPLOYEE_IDS` under the digit-string
guard. -/
def isExcluded (employer_id : String) (excluded : List Nat) : Bool :=
  match digitValue employer_id with
  | some n => excluded.contains n
  | none => false

/-- Rendering of one phone entry:
plus sign, country, city code in parentheses, number, and the comment in
square brackets when present. -/
def formatPhone (p : Phone) : String :=
  let phone_full := "+" ++ p.country ++ " (" ++ p.city ++ ") " ++ p.number
  if p.comment ≠ "" then phone_full ++ " [" ++ p.comment ++ "]" else phone_full

/-- The `has_contacts` flag: some phone entry has a non-empty number. -/
def hasPhoneNumber (phones_arr : List Phone) : Bool :=
  phones_arr.any (fun p => p.number ≠ "")

/-- contacts.get("email", "") with contacts possibly None. -/
def contactEmail (v : Vacancy) : String :=
  match v.contacts with
  | some c => c.email
  | none => ""

/-- contacts.get("phones", []) with contacts possibly None. -/
def contactPhones (v : Vacancy) : List Phone :=
  match v.contacts with
  | some c => c.phones
  | none => []

/-- contacts.get("name", "") with contacts possibly None. -/
def contactName (v : Vacancy) : String :=
  match v.contacts with
  | some c => c.name
  | none => ""

/-- The city computation: prefer a truthy address["city"], else
area.get("name", "Не указано"). -/
def cityOf (v : Vacancy) : String :=
  match v.address with
  | some (some c) => if c = "" then v.area.getD "Не указано" else c
  | some none => v.area.getD "Не указано"
  | none => v.area.getD "Не указано"

/-- The per-posting body of the loop in save_to_db, as a pure record
filter: `none` when the posting is skipped (excluded employer, or no
email and no phone number), `some row` with the normalized row otherwise.
Field computations follow the source line by line. -/
def recordFilter (excluded : List Nat) (vac : Vacancy) : Option StoredRecord :=
  let employer_id := vac.employer.id
  if isExcluded employer_id excluded then none
  else
    let email := contactEmail vac
    let phones_arr := contactPhones vac
    if email = "" ∧ hasPhoneNumber phones_arr = false then none
    else
      some {
        id := vac.id
        vacancy_name := vac.name
        url := vac.alternate_url
        employer_id := employer_id
        employer_name := vac.employer.name.getD "Не указано"
        city := cityOf vac
        contact_name := contactName vac
        phones := String.intercalate "\n" (phones_arr.map formatPhone)
        email := email
        prof_roles := String.intercalate ", " vac.professional_roles
        industry := vac.employer.industries.headD ""
        published_at := vac.published_at }

/-- INSERT OR IGNORE on the primary key `id`: append the row when no row
with its id exists, otherwise leave the table unchanged. -/
def insertOrIgnore (db : List StoredRecord) (r : StoredRecord) : List StoredRecord :=
  if db.any (fun row => row.id == r.id) then db else db ++ [r]

/-- save_to_db: fold the record filter and INSERT OR IGNORE over the
incoming postings, in order. -/
def save_to_db (excluded : List Nat) (db : List StoredRecord)
    (vacancies : List Vacancy) : List StoredRecord :=
  vacancies.foldl (fun d vac =>
    match recordFilter excluded vac with
    | some r => insertOrIgnore d r
    | none => d) db

/-! ### Date ordinals

Python datetime values are identified with their proleptic-Gregorian day
ordinals (datetime.toordinal), since parse_with_parts only uses whole-day
subtraction, addition of whole-day timedeltas, and comparison, all of
which agree with integer arithmetic on ordinals. -/

/-- Gregorian leap-year test. -/
def isLeapYear (y : Nat) : Bool :=
  (y % 4 == 0 && y % 100 != 0) || y % 400 == 0

/-- Month lengths of a year. -/
def monthLengths (leap : Bool) : List Nat :=
  [31, if leap then 29 else 28, 31, 30, 31, 30, 31, 31, 30, 31, 30, 31]

/-- Days in the year strictly before month m (1-based). -/
def daysBeforeMonth (y m : Nat) : Nat :=
  ((monthLengths (isLeapYear y)).take (m - 1)).sum

/-- Proleptic-Gregorian ordinal of year-month-day, with day 1 being
0001-01-01, as in Python datetime.toordinal. -/
def toOrdinal (y m d : Nat) : Int :=
  ((y - 1) * 365 + (y - 1) / 4 - (y - 1) / 100 + (y - 1) / 400
    + daysBeforeMonth y m + d : Nat)

/-! ### Range walker (parse_by_date_range)

One page fetch is modelled by a function from the page index to the
decoded JSON body: the items list and the optional "pages" field.  The
while-True loop is modelled with a fuel counter that starts at 200;
since the loop increments page from 0 and breaks before page reaches
200, fuel equals 200 - page throughout and the fuel-exhaustion branch is
unreachable from the entry point. -/

/-- A decoded search response: data.get("items", []) and the "pages"
field when present. -/
structure Response where
  items : List Vacancy
  pages : Option Int
deriving DecidableEq

/-- Observable outcome of one window walk: the accumulated total_saved
counter (printed by the source; the Python function itself returns None),
the table contents, and the page indices fetched, in order. -/
structure WalkResult where
  total_saved : Nat
  db : List StoredRecord
  fetched : List Nat
deriving DecidableEq

/-- The while-True loop of parse_by_date_range.  Each iteration issues
one fetch; the loop ends on an empty items list, on reaching the reported
page count data.get("pages", 1), or on reaching the hard 200-page
ceiling. -/
def walkLoop (fetch : Nat → Response) (excluded : List Nat) :
    Nat → Nat → Nat → List StoredRecord → List Nat → WalkResult
  | 0, _, total, db, fetched => ⟨total, db, fetched⟩
  | fuel + 1, page, total, db, fetched =>
    let data := fetch page
    let vacancies := data.items
    let fetched1 := fetched ++ [page]
    if vacancies.isEmpty then ⟨total, db, fetched1⟩
    else
      let db1 := save_to_db excluded db vacancies
      let total1 := total + vacancies.length
      let page1 := page + 1
      if (page1 : Int) ≥ data.pages.getD 1 then ⟨total1, db1, fetched1⟩
      else if page1 ≥ 200 then ⟨total1, db1, fetched1⟩
      else walkLoop fetch excluded fuel page1 total1 db1 fetched1

/-- parse_by_date_range for one window, starting at page 0 over the given
table state. -/
def parse_by_date_range (fetch : Nat → Response) (excluded : List Nat)
    (db : List StoredRecord) : WalkResult :=
  walkLoop fetch excluded 200 0 0 db []

/-! ### Window partitioner (parse_with_parts) -/

/-- The for-loop of parse_with_parts.  The countdown argument is the
number of loop iterations left (parts - i); i is the Python loop index.
Each iteration emits the window [current_start, current_end] (clamped to
dt_end) and breaks when the next start would pass dt_end. -/
def partsLoop (dt_end days_per_part remainder : Int) :
    Nat → Nat → Int → List (Int × Int)
  | 0, _, _ => []
  | n + 1, i, current_start =>
    let extra : Int := if (i : Int) < remainder then 1 else 0
    let ce := current_start + (days_per_part + extra - 1)
    let current_end := if ce > dt_end then dt_end else ce
    if current_end + 1 > dt_end then
      [(current_start, current_end)]
    else
      (current_start, current_end) ::
        partsLoop dt_end days_per_part remainder n (i + 1) (current_end + 1)

/-- parse_with_parts, restricted to its window computation: `none` models
the printed configuration error followed by an immediate return (inverted
range or non-positive parts); otherwise the produced list of inclusive
day-ordinal windows.  On Int, / and % are Euclidean division, which
agrees with Python's floor-division // and % because the divisor parts
is positive on this branch. -/
def parse_with_parts (dt_start dt_end : Int) (parts : Int) :
    Option (List (Int × Int)) :=
  if dt_end < dt_start then none
  else if parts ≤ 0 then none
  else
    let total_days := (dt_end - dt_start) + 1
    let days_per_part := total_days / parts
    let remainder := total_days % parts
    some (partsLoop dt_end days_per_part remainder parts.toNat 0 dt_start)

/-- Requests issued by a whole run of parse_with_parts: window paired
with page index. -/
structure RunResult where
  db : List StoredRecord
  requests : List ((Int × Int) × Nat)
deriving DecidableEq

/-- parse_with_parts including its driving of parse_by_date_range over
each produced window, sequentially, threading the table state.  In the
configuration-error case the function returns with no windows walked and
the table untouched. -/
def parse_with_parts_run (fetch : Int × Int → Nat → Response)
    (excluded : List Nat) (dt_start dt_end parts : Int)
    (db : List StoredRecord) : RunResult :=
  match parse_with_parts dt_start dt_end parts with
  | none => ⟨db, []⟩
  | some ws => ws.foldl (fun acc w =>
      let r := parse_by_date_range (fetch w) excluded acc.db
      ⟨r.db, acc.requests ++ r.fetched.map (fun p => (w, p))⟩) ⟨db, []⟩

/-! ### Spec-side description of the partition (for refinement claims)

The following definitions transcribe the specification's wording: with
total_days = (end - start) + 1, base = total_days // parts and
remainder = total_days % parts, the windows are contiguous from
start_date, the first remainder of them spanning base + 1 days and the
rest base days.  They are compared against parse_with_parts in the
claims. -/

/-- total_days of the spec and the source: inclusive day count. -/
def totalDays (dt_start dt_end : Int) : Int := (dt_end - dt_start) + 1

/-- base day count per window (floor division). -/
def baseDays (dt_start dt_end parts : Int) : Int :=
  totalDays dt_start dt_end / parts

/-- remainder days to be absorbed by the earliest windows. -/
def remDays (dt_start dt_end parts : Int) : Int :=
  totalDays dt_start dt_end % parts

/-- Modelled from the spec: cumulative number of days covered by the
first k windows when the first remainder windows get base + 1 days and
the rest get base days. -/
def specOffset (base rem : Int) (k : Nat) : Int :=
  k * base + min (k : Int) rem

/-- Number of windows the loop actually emits: parts, capped by the day
count (the loop breaks once the days run out). -/
def winCount (dt_start dt_end parts : Int) : Nat :=
  min parts.toNat (totalDays dt_start dt_end).toNat

/-- The k-th produced window in closed form (0-based, inclusive
bounds). -/
def winAt (dt_start dt_end parts : Int) (k : Nat) : Int × Int :=
  (dt_start + specOffset (baseDays dt_start dt_end parts)
      (remDays dt_start dt_end parts) k,
   dt_start + specOffset (baseDays dt_start dt_end parts)
      (remDays dt_start dt_end parts) (k + 1) - 1)

/-- The full window list in closed form. -/
def specWindows (dt_start dt_end parts : Int) : List (Int × Int) :=
  (List.range (winCount dt_start dt_end parts)).map (winAt dt_start dt_end parts)

/-- Day count of a window with inclusive bounds. -/
def winLen (w : Int × Int) : Int := w.2 - w.1 + 1

/-! ### Lemmas about the Store and the Record Filter -/

lemma any_id_eq_true {db : List StoredRecord} {r : StoredRecord} :
    db.any (fun row => row.id == r.id) = true ↔ ∃ row ∈ db, row.id = r.id := by
  simp [List.any_eq_true]

lemma insertOrIgnore_of_exists {db : List StoredRecord} {r : StoredRecord}
    (h : ∃ row ∈ db, row.id = r.id) : insertOrIgnore db r = db := by
  unfold insertOrIgnore
  rw [if_pos (any_id_eq_true.mpr h)]

lemma insertOrIgnore_of_forall {db : List StoredRecord} {r : StoredRecord}
    (h : ∀ row ∈ db, row.id ≠ r.id) : insertOrIgnore db r = db ++ [r] := by
  unfold insertOrIgnore
  rw [if_neg]
  intro hc
  obtain ⟨row, hrow, hid⟩ := any_id_eq_true.mp hc
  exact h row hrow hid

lemma insertOrIgnore_exists_append (db : List StoredRecord) (r : StoredRecord) :
    ∃ e, insertOrIgnore db r = db ++ e := by
  unfold insertOrIgnore
  by_cases h : db.any (fun row => row.id == r.id) = true
  · exact ⟨[], by rw [if_pos h, List.append_nil]⟩
  · exact ⟨[r], by rw [if_neg h]⟩

lemma save_to_db_nil (ex : List Nat) (db : List StoredRecord) :
    save_to_db ex db [] = db := rfl

lemma save_to_db_cons_none {ex : List Nat} {v : Vacancy}
    (db : List StoredRecord) (l : List Vacancy)
    (h : recordFilter ex v = none) :
    save_to_db ex db (v :: l) = save_to_db ex db l := by
  simp [save_to_db, h]

lemma save_to_db_cons_some {ex : List Nat} {v : Vacancy} {r : StoredRecord}
    (db : List StoredRecord) (l : List Vacancy)
    (h : recordFilter ex v = some r) :
    save_to_db ex db (v :: l) = save_to_db ex (insertOrIgnore db r) l := by
  simp [save_to_db, h]

lemma save_to_db_append (ex : List Nat) (db : List StoredRecord)
    (l1 l2 : List Vacancy) :
    save_to_db ex db (l1 ++ l2) = save_to_db ex (save_to_db ex db l1) l2 := by
  simp [save_to_db, List.foldl_append]

lemma save_to_db_skip {ex : List Nat} {v : Vacancy}
    (db : List StoredRecord) (l1 l2 : List Vacancy)
    (h : recordFilter ex v = none) :
    save_to_db ex db (l1 ++ v :: l2) = save_to_db ex db (l1 ++ l2) := by
  rw [save_to_db_append, save_to_db_append, save_to_db_cons_none _ _ h]

lemma save_to_db_only_appends (ex : List Nat) (vacs : List Vacancy) :
    ∀ db, ∃ new, save_to_db ex db vacs = db ++ new := by
  induction vacs with
  | nil => exact fun db => ⟨[], by simp [save_to_db_nil]⟩
  | cons v vs ih =>
    intro db
    cases hrf : recordFilter ex v with
    | none =>
      obtain ⟨new, hnew⟩ := ih db
      exact ⟨new, by rw [save_to_db_cons_none _ _ hrf, hnew]⟩
    | some r =>
      obtain ⟨e, he⟩ := insertOrIgnore_exists_append db r
      obtain ⟨new, hnew⟩ := ih (insertOrIgnore db r)
      exact ⟨e ++ new, by
        rw [save_to_db_cons_some _ _ hrf, hnew, he, List.append_assoc]⟩

lemma recordFilter_id_eq {ex : List Nat} {v : Vacancy} {r : StoredRecord}
    (h : recordFilter ex v = some r) : r.id = v.id := by
  simp only [recordFilter] at h
  split at h
  · exact absurd h (by simp)
  · split at h
    · exact absurd h (by simp)
    · cases Option.some.inj h
      rfl

lemma recordFilter_of_excluded {ex : List Nat} {v : Vacancy} {n : Nat}
    (hdig : digitValue v.employer.id = some n) (hmem : n ∈ ex) :
    recordFilter ex v = none := by
  have hex : isExcluded v.employer.id ex = true := by
    unfold isExcluded
    rw [hdig]
    exact List.elem_iff.mpr hmem
  unfold recordFilter
  rw [if_pos hex]

lemma insertOrIgnore_nodup {db : List StoredRecord} {r : StoredRecord}
    (h : (db.map StoredRecord.id).Nodup) :
    ((insertOrIgnore db r).map StoredRecord.id).Nodup := by
  unfold insertOrIgnore
  by_cases hc : db.any (fun row => row.id == r.id) = true
  · rw [if_pos hc]; exact h
  · rw [if_neg hc, List.map_append]
    rw [List.nodup_append]
    refine ⟨h, List.nodup_singleton _, ?_⟩
    intro a ha hb
    obtain ⟨row, hrow, hrowid⟩ := List.mem_map.mp ha
    have : a = r.id := by simpa using hb
    subst this
    exact hc (any_id_eq_true.mpr ⟨row, hrow, hrowid⟩)

lemma save_to_db_nodup (ex : List Nat) (vacs : List Vacancy) :
    ∀ db, (db.map StoredRecord.id).Nodup →
      ((save_to_db ex db vacs).map StoredRecord.id).Nodup := by
  induction vacs with
  | nil => exact fun db h => h
  | cons v vs ih =>
    intro db h
    cases hrf : recordFilter ex v with
    | none => rw [save_to_db_cons_none _ _ hrf]; exact ih db h
    | some r =>
      rw [save_to_db_cons_some _ _ hrf]
      exact ih _ (insertOrIgnore_nodup h)

/-! ### Claims about the Record Filter and the Store -/

/-- C5: a raw posting whose employer id string parses as an integer that
is a member of the exclusion set is rejected by the record filter and is
never inserted into the store, whatever its contact data: deleting it
from the input batch leaves save_to_db's result unchanged. -/
theorem claim_C5 (excluded : List Nat) (db : List StoredRecord)
    (pre post : List Vacancy) (vac : Vacancy) (n : Nat)
    (hdig : digitValue vac.employer.id = some n) (hmem : n ∈ excluded) :
    recordFilter excluded vac = none ∧
    save_to_db excluded db (pre ++ vac :: post) =
      save_to_db excluded db (pre ++ post) := by
  have hrf := recordFilter_of_excluded hdig hmem
  exact ⟨hrf, save_to_db_skip db pre post hrf⟩

/-- Witness for C5 at a concrete posting: employer id "3177" is in the
exclusion list, the posting carries a non-empty email, yet it is rejected
and contributes nothing to the store. -/
theorem claim_C5_witness :
    recordFilter EXCLUDED_EMPLOYEE_IDS
      { id := "7", employer := { id := "3177" },
        contacts := some { email := "hr@x.ru" } } = none ∧
    save_to_db EXCLUDED_EMPLOYEE_IDS []
      ([] ++ { id := "7", employer := { id := "3177" },
               contacts := some { email := "hr@x.ru" } } :: []) =
      save_to_db EXCLUDED_EMPLOYEE_IDS [] ([] ++ []) :=
  claim_C5 EXCLUDED_EMPLOYEE_IDS [] [] []
    { id := "7", employer := { id := "3177" },
      contacts := some { email := "hr@x.ru" } } 3177 (by decide) (by decide)

/-- C6: for a posting with a non-excluded employer, the contact gate of
save_to_db: with empty email and no phone entry carrying a non-empty
number the posting is rejected and never stored; with a non-empty email
and no phone entries it is accepted, and after saving it a row with its
id is in the store. -/
theorem claim_C6 (excluded : List Nat) (vac : Vacancy)
    (hnx : isExcluded vac.employer.id excluded = false) :
    (contactEmail vac = "" → hasPhoneNumber (contactPhones vac) = false →
      recordFilter excluded vac = none ∧
      ∀ (db : List StoredRecord) (pre post : List Vacancy),
        save_to_db excluded db (pre ++ vac :: post) =
          save_to_db excluded db (pre ++ post)) ∧
    (contactEmail vac ≠ "" → contactPhones vac = [] →
      (∃ r, recordFilter excluded vac = some r ∧ r.id = vac.id) ∧
      ∀ db : List StoredRecord,
        ∃ row ∈ save_to_db excluded db [vac], row.id = vac.id) := by
  constructor
  · intro hemail hphone
    have hrf : recordFilter excluded vac = none := by
      simp only [recordFilter, hnx, Bool.false_eq_true, if_false]
      rw [if_pos ⟨hemail, hphone⟩]
    exact ⟨hrf, fun db pre post => save_to_db_skip db pre post hrf⟩
  · intro hemail hphones
    have hrf : ∃ r, recordFilter excluded vac = some r ∧ r.id = vac.id := by
      simp only [recordFilter, hnx, Bool.false_eq_true, if_false]
      rw [if_neg (fun hc => hemail hc.1)]
      exact ⟨_, rfl, rfl⟩
    obtain ⟨r, hr, hrid⟩ := hrf
    refine ⟨⟨r, hr, hrid⟩, fun db => ?_⟩
    rw [show save_to_db excluded db [vac] = insertOrIgnore db r from
      save_to_db_cons_some db [] hr]
    by_cases hc : ∃ row ∈ db, row.id = r.id
    · rw [insertOrIgnore_of_exists hc]
      obtain ⟨row, hrow, hrid2⟩ := hc
      exact ⟨row, hrow, hrid ▸ hrid2⟩
    · push_neg at hc
      rw [insertOrIgnore_of_forall hc]
      exact ⟨r, by simp, hrid⟩

/-- Witness for C6 at two concrete postings: one with neither email nor
phones (rejected), one with email only (accepted and stored). -/
theorem claim_C6_witness :
    ((contactEmail { id := "9", employer := { id := "42" } } = "" →
      hasPhoneNumber (contactPhones { id := "9", employer := { id := "42" } }) = false →
      recordFilter EXCLUDED_EMPLOYEE_IDS { id := "9", employer := { id := "42" } } = none ∧
      ∀ (db : List StoredRecord) (pre post : List Vacancy),
        save_to_db EXCLUDED_EMPLOYEE_IDS db
            (pre ++ { id := "9", employer := { id := "42" } } :: post) =
          save_to_db EXCLUDED_EMPLOYEE_IDS db (pre ++ post)) ∧
     (contactEmail { id := "9", employer := { id := "42" } } ≠ "" →
      contactPhones { id := "9", employer := { id := "42" } } = [] →
      (∃ r, recordFilter EXCLUDED_EMPLOYEE_IDS
          { id := "9", employer := { id := "42" } } = some r ∧ r.id = "9") ∧
      ∀ db : List StoredRecord,
        ∃ row ∈ save_to_db EXCLUDED_EMPLOYEE_IDS db
            [{ id := "9", employer := { id := "42" } }], row.id = "9")) ∧
    ((contactEmail
        { id := "8", employer := { id := "42" },
          contacts := some { email := "a@b.c" } } = "" →
      hasPhoneNumber (contactPhones
        { id := "8", employer := { id := "42" },
          contacts := some { email := "a@b.c" } }) = false →
      recordFilter EXCLUDED_EMPLOYEE_IDS
        { id := "8", employer := { id := "42" },
          contacts := some { email := "a@b.c" } } = none ∧
      ∀ (db : List StoredRecord) (pre post : List Vacancy),
        save_to_db EXCLUDED_EMPLOYEE_IDS db
            (pre ++ { id := "8", employer := { id := "42" },
                      contacts := some { email := "a@b.c" } } :: post) =
          save_to_db EXCLUDED_EMPLOYEE_IDS db (pre ++ post)) ∧
     (contactEmail
        { id := "8", employer := { id := "42" },
          contacts := some { email := "a@b.c" } } ≠ "" →
      contactPhones
        { id := "8", employer := { id := "42" },
          contacts := some { email := "a@b.c" } } = [] →
      (∃ r, recordFilter EXCLUDED_EMPLOYEE_IDS
          { id := "8", employer := { id := "42" },
            contacts := some { email := "a@b.c" } } = some r ∧ r.id = "8") ∧
      ∀ db : List StoredRecord,
        ∃ row ∈ save_to_db EXCLUDED_EMPLOYEE_IDS db
            [{ id := "8", employer := { id := "42" },
               contacts := some { email := "a@b.c" } }], row.id = "8")) :=
  ⟨claim_C6 EXCLUDED_EMPLOYEE_IDS { id := "9", employer := { id := "42" } }
      (by decide),
   claim_C6 EXCLUDED_EMPLOYEE_IDS
      { id := "8", employer := { id := "42" },
        contacts := some { email := "a@b.c" } } (by decide)⟩

/-- C7: the store's upsert is insert-if-absent: inserting a row whose id
is present is a no-op (so repeats keep the first insert's fields and a
single row per id), the insert is idempotent, and save_to_db only ever
appends new rows, never updating or deleting existing ones. -/
theorem claim_C7 (excluded : List Nat) (db : List StoredRecord)
    (r : StoredRecord) (vacs : List Vacancy) :
    ((∃ row ∈ db, row.id = r.id) → insertOrIgnore db r = db) ∧
    ((∀ row ∈ db, row.id ≠ r.id) → insertOrIgnore db r = db ++ [r]) ∧
    insertOrIgnore (insertOrIgnore db r) r = insertOrIgnore db r ∧
    ((∀ row ∈ db, row.id ≠ r.id) →
      (insertOrIgnore (insertOrIgnore db r) r).filter
        (fun row => row.id == r.id) = [r]) ∧
    (∃ new, save_to_db excluded db vacs = db ++ new) := by
  have hidem : insertOrIgnore (insertOrIgnore db r) r = insertOrIgnore db r := by
    by_cases hc : ∃ row ∈ db, row.id = r.id
    · rw [insertOrIgnore_of_exists hc, insertOrIgnore_of_exists hc]
    · push_neg at hc
      rw [insertOrIgnore_of_forall hc]
      exact insertOrIgnore_of_exists ⟨r, by simp, rfl⟩
  refine ⟨insertOrIgnore_of_exists, insertOrIgnore_of_forall, hidem, ?_,
    save_to_db_only_appends excluded vacs db⟩
  intro h
  rw [hidem, insertOrIgnore_of_forall h, List.filter_append]
  have h1 : db.filter (fun row => row.id == r.id) = [] := by
    rw [List.filter_eq_nil_iff]
    intro row hrow
    simpa using h row hrow
  rw [h1]
  simp

/-- Witness for C7 at a concrete table and row. -/
theorem claim_C7_witness :
    ((∃ row ∈ ([] : List StoredRecord),
        row.id = ({ id := "1", vacancy_name := "", url := "", employer_id := "",
                    employer_name := "", city := "", contact_name := "", phones := "",
                    email := "", prof_roles := "", industry := "",
                    published_at := "" } : StoredRecord).id) →
      insertOrIgnore []
        { id := "1", vacancy_name := "", url := "", employer_id := "",
          employer_name := "", city := "", contact_name := "", phones := "",
          email := "", prof_roles := "", industry := "", published_at := "" } = []) ∧
    ((∀ row ∈ ([] : List StoredRecord),
        row.id ≠ ({ id := "1", vacancy_name := "", url := "", employer_id := "",
                    employer_name := "", city := "", contact_name := "", phones := "",
                    email := "", prof_roles := "", industry := "",
                    published_at := "" } : StoredRecord).id) →
      insertOrIgnore []
        { id := "1", vacancy_name := "", url := "", employer_id := "",
          employer_name := "", city := "", contact_name := "", phones := "",
          email := "", prof_roles := "", industry := "", published_at := "" } =
        [] ++ [{ id := "1", vacancy_name := "", url := "", employer_id := "",
                 employer_name := "", city := "", contact_name := "", phones := "",
                 email := "", prof_roles := "", industry := "", published_at := "" }]) ∧
    insertOrIgnore (insertOrIgnore []
        { id := "1", vacancy_name := "", url := "", employer_id := "",
          employer_name := "", city := "", contact_name := "", phones := "",
          email := "", prof_roles := "", industry := "", published_at := "" })
        { id := "1", vacancy_name := "", url := "", employer_id := "",
          employer_name := "", city := "", contact_name := "", phones := "",
          email := "", prof_roles := "", industry := "", published_at := "" } =
      insertOrIgnore []
        { id := "1", vacancy_name := "", url := "", employer_id := "",
          employer_name := "", city := "", contact_name := "", phones := "",
          email := "", prof_roles := "", industry := "", published_at := "" } ∧
    ((∀ row ∈ ([] : List StoredRecord),
        row.id ≠ ({ id := "1", vacancy_name := "", url := "", employer_id := "",
                    employer_name := "", city := "", contact_name := "", phones := "",
                    email := "", prof_roles := "", industry := "",
                    published_at := "" } : StoredRecord).id) →
      (insertOrIgnore (insertOrIgnore []
          { id := "1", vacancy_name := "", url := "", employer_id := "",
            employer_name := "", city := "", contact_name := "", phones := "",
            email := "", prof_roles := "", industry := "", published_at := "" })
          { id := "1", vacancy_name := "", url := "", employer_id := "",
            employer_name := "", city := "", contact_name := "", phones := "",
            email := "", prof_roles := "", industry := "", published_at := "" }).filter
        (fun row => row.id ==
          ({ id := "1", vacancy_name := "", url := "", employer_id := "",
             employer_name := "", city := "", contact_name := "", phones := "",
             email := "", prof_roles := "", industry := "",
             published_at := "" } : StoredRecord).id) =
        [{ id := "1", vacancy_name := "", url := "", employer_id := "",
           employer_name := "", city := "", contact_name := "", phones := "",
           email := "", prof_roles := "", industry := "", published_at := "" }]) ∧
    (∃ new, save_to_db EXCLUDED_EMPLOYEE_IDS [] [] = [] ++ new) :=
  claim_C7 EXCLUDED_EMPLOYEE_IDS []
    { id := "1", vacancy_name := "", url := "", employer_id := "",
      employer_name := "", city := "", contact_name := "", phones := "",
      email := "", prof_roles := "", industry := "", published_at := "" } []

/-- C9: within one save_to_db call, of two accepted postings with the
same id only the first is persisted (the second is silently ignored);
the filter keys every row by the posting's id field, which is the empty
string when the upstream id is missing (the model's Vacancy.id already
carries the vac.get("id", "") default), so all id-less postings share the
key ""; and save_to_db preserves uniqueness of the id column. -/
theorem claim_C9 (excluded : List Nat) (db : List StoredRecord)
    (v1 v2 : Vacancy) (rest : List Vacancy) (r1 r2 : StoredRecord)
    (h1 : recordFilter excluded v1 = some r1)
    (h2 : recordFilter excluded v2 = some r2)
    (hid : r2.id = r1.id)
    (hfresh : ∀ row ∈ db, row.id ≠ r1.id) :
    save_to_db excluded db (v1 :: v2 :: rest) =
      save_to_db excluded (db ++ [r1]) rest ∧
    (∀ v r, recordFilter excluded v = some r → r.id = v.id) ∧
    ∀ (db2 : List StoredRecord) (vacs : List Vacancy),
      (db2.map StoredRecord.id).Nodup →
      ((save_to_db excluded db2 vacs).map StoredRecord.id).Nodup := by
  refine ⟨?_, fun v r h => recordFilter_id_eq h,
    fun db2 vacs h => save_to_db_nodup excluded vacs db2 h⟩
  rw [save_to_db_cons_some db (v2 :: rest) h1, insertOrIgnore_of_forall hfresh,
    save_to_db_cons_some _ rest h2,
    insertOrIgnore_of_exists ⟨r1, by simp, hid.symm⟩]

/-- Witness for C9 at two concrete accepted postings sharing id "8". -/
theorem claim_C9_witness :
    save_to_db EXCLUDED_EMPLOYEE_IDS []
      [{ id := "8", employer := { id := "42" },
         contacts := some { email := "a@b.c" } },
       { id := "8", name := "dup", employer := { id := "43" },
         contacts := some { email := "z@b.c" } }] =
      save_to_db EXCLUDED_EMPLOYEE_IDS
        ([] ++ [{ id := "8", vacancy_name := "", url := "", employer_id := "42",
                  employer_name := "Не указано", city := "Не указано",
                  contact_name := "", phones := "", email := "a@b.c",
                  prof_roles := "", industry := "", published_at := "" }]) [] ∧
    (∀ v r, recordFilter EXCLUDED_EMPLOYEE_IDS v = some r → r.id = v.id) ∧
    ∀ (db2 : List StoredRecord) (vacs : List Vacancy),
      (db2.map StoredRecord.id).Nodup →
      ((save_to_db EXCLUDED_EMPLOYEE_IDS db2 vacs).map StoredRecord.id).Nodup :=
  claim_C9 EXCLUDED_EMPLOYEE_IDS []
    { id := "8", employer := { id := "42" },
      contacts := some { email := "a@b.c" } }
    { id := "8", name := "dup", employer := { id := "43" },
      contacts := some { email := "z@b.c" } } []
    { id := "8", vacancy_name := "", url := "", employer_id := "42",
      employer_name := "Не указано", city := "Не указано", contact_name := "",
      phones := "", email := "a@b.c", prof_roles := "", industry := "",
      published_at := "" }
    { id := "8", vacancy_name := "dup", url := "", employer_id := "43",
      employer_name := "Не указано", city := "Не указано", contact_name := "",
      phones := "", email := "z@b.c", prof_roles := "", industry := "",
      published_at := "" }
    (by decide) (by decide) (by decide) (by decide)

/-! ### Lemmas about the Range Walker -/

lemma insertOrIgnore_length (db : List StoredRecord) (r : StoredRecord) :
    (insertOrIgnore db r).length ≤ db.length + 1 := by
  unfold insertOrIgnore
  by_cases h : db.any (fun row => row.id == r.id) = true
  · rw [if_pos h]; omega
  · rw [if_neg h]; simp

lemma save_to_db_length (ex : List Nat) (vacs : List Vacancy) :
    ∀ db, (save_to_db ex db vacs).length ≤ db.length + vacs.length := by
  induction vacs with
  | nil => intro db; simp [save_to_db_nil]
  | cons v vs ih =>
    intro db
    cases hrf : recordFilter ex v with
    | none =>
      rw [save_to_db_cons_none _ _ hrf]
      calc (save_to_db ex db vs).length ≤ db.length + vs.length := ih db
        _ ≤ db.length + (v :: vs).length := by
            simp only [List.length_cons]; omega
    | some r =>
      rw [save_to_db_cons_some _ _ hrf]
      calc (save_to_db ex (insertOrIgnore db r) vs).length
          ≤ (insertOrIgnore db r).length + vs.length := ih _
        _ ≤ (db.length + 1) + vs.length := by
            have := insertOrIgnore_length db r; omega
        _ = db.length + (v :: vs).length := by
            simp only [List.length_cons]; omega

lemma walkLoop_fetched_bound (fetch : Nat → Response) (ex : List Nat) :
    ∀ (fuel page total : Nat) (db : List StoredRecord) (fetched : List Nat),
      (walkLoop fetch ex fuel page total db fetched).fetched.length ≤
        fetched.length + fuel ∧
      (page + fuel ≤ 200 → (∀ q ∈ fetched, q < 200) →
        ∀ q ∈ (walkLoop fetch ex fuel page total db fetched).fetched, q < 200) := by
  intro fuel
  induction fuel with
  | zero => intro page total db fetched; exact ⟨by simp [walkLoop], by
      intro _ hq q hqm
      exact hq q hqm⟩
  | succ n ih =>
    intro page total db fetched
    have hsing : ∀ q ∈ fetched ++ [page], page + (n + 1) ≤ 200 →
        (∀ q2 ∈ fetched, q2 < 200) → q < 200 := by
      intro q hq hle hall
      rcases List.mem_append.mp hq with h | h
      · exact hall q h
      · have : q = page := by simpa using h
        omega
    simp only [walkLoop]
    by_cases hemp : (fetch page).items.isEmpty = true
    · rw [if_pos hemp]
      refine ⟨by simp only [List.length_append, List.length_cons,
        List.length_nil]; omega, ?_⟩
      intro hle hall q hq
      exact hsing q hq hle hall
    · rw [if_neg hemp]
      by_cases hpg : ((page + 1 : Nat) : Int) ≥ (fetch page).pages.getD 1
      · rw [if_pos hpg]
        refine ⟨by simp only [List.length_append, List.length_cons,
          List.length_nil]; omega, ?_⟩
        intro hle hall q hq
        exact hsing q hq hle hall
      · rw [if_neg hpg]
        by_cases hceil : page + 1 ≥ 200
        · rw [if_pos hceil]
          refine ⟨by simp only [List.length_append, List.length_cons,
            List.length_nil]; omega, ?_⟩
          intro hle hall q hq
          exact hsing q hq hle hall
        · rw [if_neg hceil]
          obtain ⟨ihlen, ihmem⟩ := ih (page + 1)
            (total + (fetch page).items.length)
            (save_to_db ex db (fetch page).items) (fetched ++ [page])
          refine ⟨?_, ?_⟩
          · have h := ihlen
            simp only [List.length_append, List.length_cons,
              List.length_nil] at h
            omega
          · intro hle hall
            exact ihmem (by omega) (fun q hq => hsing q hq hle hall)

lemma walkLoop_total (fetch : Nat → Response) (ex : List Nat) :
    ∀ (fuel page total : Nat) (db : List StoredRecord) (fetched : List Nat),
      ∃ newPages,
        (walkLoop fetch ex fuel page total db fetched).fetched =
          fetched ++ newPages ∧
        (walkLoop fetch ex fuel page total db fetched).total_saved =
          total + (newPages.map (fun p => (fetch p).items.length)).sum ∧
        (walkLoop fetch ex fuel page total db fetched).db.length ≤
          db.length + (newPages.map (fun p => (fetch p).items.length)).sum := by
  intro fuel
  induction fuel with
  | zero => intro page total db fetched; exact ⟨[], by simp [walkLoop]⟩
  | succ n ih =>
    intro page total db fetched
    simp only [walkLoop]
    by_cases hemp : (fetch page).items.isEmpty = true
    · rw [if_pos hemp]
      have hzero : (fetch page).items.length = 0 := by
        rw [List.isEmpty_iff.mp hemp]; rfl
      exact ⟨[page], by simp [hzero]⟩
    · rw [if_neg hemp]
      by_cases hpg : ((page + 1 : Nat) : Int) ≥ (fetch page).pages.getD 1
      · rw [if_pos hpg]
        refine ⟨[page], by simp, by simp, ?_⟩
        simpa using save_to_db_length ex (fetch page).items db
      · rw [if_neg hpg]
        by_cases hceil : page + 1 ≥ 200
        · rw [if_pos hceil]
          refine ⟨[page], by simp, by simp, ?_⟩
          simpa using save_to_db_length ex (fetch page).items db
        · rw [if_neg hceil]
          obtain ⟨np, hf, ht, hd⟩ := ih (page + 1)
            (total + (fetch page).items.length)
            (save_to_db ex db (fetch page).items) (fetched ++ [page])
          refine ⟨page :: np, ?_, ?_, ?_⟩
          · rw [hf, List.append_assoc]; rfl
          · rw [ht]; simp [Nat.add_assoc]
          · have hsv := save_to_db_length ex (fetch page).items db
            calc (walkLoop fetch ex n (page + 1)
                    (total + (fetch page).items.length)
                    (save_to_db ex db (fetch page).items)
                    (fetched ++ [page])).db.length
                ≤ (save_to_db ex db (fetch page).items).length +
                    (np.map (fun p => (fetch p).items.length)).sum := hd
              _ ≤ (db.length + (fetch page).items.length) +
                    (np.map (fun p => (fetch p).items.length)).sum := by omega
              _ = db.length +
                    ((page :: np).map (fun p => (fetch p).items.length)).sum := by
                  simp [Nat.add_assoc]

/-! ### Claims about the Range Walker -/

/-- C4: a single window walk never issues more than 200 page requests,
and every requested page index lies in 0..199, whatever page count the
upstream reports. -/
theorem claim_C4 (fetch : Nat → Response) (excluded : List Nat)
    (db : List StoredRecord) :
    (parse_by_date_range fetch excluded db).fetched.length ≤ 200 ∧
    ∀ q ∈ (parse_by_date_range fetch excluded db).fetched, q < 200 := by
  obtain ⟨hlen, hmem⟩ := walkLoop_fetched_bound fetch excluded 200 0 0 db []
  exact ⟨by simpa using hlen, hmem (by omega) (by simp)⟩

lemma walkLoop_stop_last_page (fetch : Nat → Response) (ex : List Nat)
    (fuel page total : Nat) (db : List StoredRecord) (fetched : List Nat)
    (hne : (fetch page).items.isEmpty = false)
    (hpg : ((page + 1 : Nat) : Int) ≥ (fetch page).pages.getD 1) :
    walkLoop fetch ex (fuel + 1) page total db fetched =
      ⟨total + (fetch page).items.length,
       save_to_db ex db (fetch page).items, fetched ++ [page]⟩ := by
  simp only [walkLoop]
  rw [if_neg (by simp [hne]), if_pos hpg]

/-- C10: when the first response has a non-empty item list but no
"pages" field, data.get("pages", 1) is 1, so the walker stops after the
single request for page 0, however many items that page carried. -/
theorem claim_C10 (fetch : Nat → Response) (excluded : List Nat)
    (db : List StoredRecord)
    (hne : (fetch 0).items ≠ []) (hpg : (fetch 0).pages = none) :
    (parse_by_date_range fetch excluded db).fetched = [0] ∧
    (parse_by_date_range fetch excluded db).total_saved =
      (fetch 0).items.length := by
  have hemp : (fetch 0).items.isEmpty = false := by
    simpa [List.isEmpty_iff] using hne
  have hstep := walkLoop_stop_last_page fetch excluded 199 0 0 db [] hemp
    (by rw [hpg]; norm_num)
  unfold parse_by_date_range
  rw [show (200 : Nat) = 199 + 1 from rfl, hstep]
  exact ⟨rfl, Nat.zero_add _⟩

/-- Witness for C10 at a concrete single-item response lacking the
"pages" field. -/
theorem claim_C10_witness :
    (parse_by_date_range (fun _ => ⟨[{ id := "w" }], none⟩)
        EXCLUDED_EMPLOYEE_IDS []).fetched = [0] ∧
    (parse_by_date_range (fun _ => ⟨[{ id := "w" }], none⟩)
        EXCLUDED_EMPLOYEE_IDS []).total_saved =
      (((fun _ => ⟨[{ id := "w" }], none⟩ : Nat → Response)) 0).items.length :=
  claim_C10 (fun _ => ⟨[{ id := "w" }], none⟩) EXCLUDED_EMPLOYEE_IDS []
    (by decide) rfl

/-- C3 counterexample: a window whose single page carries one posting
that the record filter rejects (no email, no phones).  The accumulated
total is 1 — the fetched-item count — while nothing was accepted or
persisted (the table stays empty), so the reported total is not the
accepted-and-stored count.  The loop also only prints this total; the
Python function itself returns None. -/
theorem claim_C3_counterexample :
    (parse_by_date_range
        (fun _ => ⟨[{ id := "101", name := "n", employer := { id := "42" } }],
          some 1⟩) EXCLUDED_EMPLOYEE_IDS []).total_saved = 1 ∧
    (parse_by_date_range
        (fun _ => ⟨[{ id := "101", name := "n", employer := { id := "42" } }],
          some 1⟩) EXCLUDED_EMPLOYEE_IDS []).db = [] := by decide

/-- C3 as amended: for every window, the total accumulated by
parse_by_date_range is the number of fetched records — the sum of the
item counts of all pages requested during the window — which bounds from
above (but need not equal) the number of rows the walk added to the
store. -/
theorem claim_C3_amended (fetch : Nat → Response) (excluded : List Nat)
    (db : List StoredRecord) :
    (parse_by_date_range fetch excluded db).total_saved =
      ((parse_by_date_range fetch excluded db).fetched.map
        (fun p => (fetch p).items.length)).sum ∧
    (parse_by_date_range fetch excluded db).db.length ≤
      db.length + (parse_by_date_range fetch excluded db).total_saved := by
  obtain ⟨np, hf, ht, hd⟩ := walkLoop_total fetch excluded 200 0 0 db []
  unfold parse_by_date_range
  rw [hf, ht]
  simpa using hd

/-! ### Lemmas about the Window Partitioner -/

lemma specOffset_zero {B R : Int} (hR : 0 ≤ R) : specOffset B R 0 = 0 := by
  simp [specOffset, min_eq_left hR]

lemma specOffset_succ (B R : Int) (_hR : 0 ≤ R) (k : Nat) :
    specOffset B R (k + 1) =
      specOffset B R k + (B + if (k : Int) < R then 1 else 0) := by
  unfold specOffset
  have hc : ((k + 1 : Nat) : Int) = (k : Int) + 1 := by push_cast; ring
  rw [hc]
  have h2 : min ((k : Int) + 1) R =
      min (k : Int) R + (if (k : Int) < R then 1 else 0) := by
    by_cases hk : (k : Int) < R
    · rw [if_pos hk]; omega
    · rw [if_neg hk]; omega
  rw [h2]
  ring

lemma specOffset_nonneg {B R : Int} (hB : 0 ≤ B) (hR : 0 ≤ R) (k : Nat) :
    0 ≤ specOffset B R k := by
  unfold specOffset
  have h1 : 0 ≤ (k : Int) * B := mul_nonneg (Int.natCast_nonneg k) hB
  have h2 : 0 ≤ min (k : Int) R := le_min (Int.natCast_nonneg k) hR
  omega

lemma specOffset_step_le {B R : Int} (hB : 0 ≤ B) (hR : 0 ≤ R) (k : Nat) :
    specOffset B R k ≤ specOffset B R (k + 1) := by
  rw [specOffset_succ B R hR]
  by_cases hk : (k : Int) < R
  · rw [if_pos hk]; omega
  · rw [if_neg hk]; omega

lemma specOffset_mono {B R : Int} (hB : 0 ≤ B) (hR : 0 ≤ R)
    {j k : Nat} (h : j ≤ k) : specOffset B R j ≤ specOffset B R k := by
  induction k with
  | zero =>
    have hj : j = 0 := Nat.le_zero.mp h
    subst hj
    exact le_refl _
  | succ m ih =>
    by_cases hj : j ≤ m
    · exact le_trans (ih hj) (specOffset_step_le hB hR m)
    · have hj2 : j = m + 1 := by omega
      subst hj2
      exact le_refl _

lemma specOffset_exists_window {B R : Int} (hR : 0 ≤ R) :
    ∀ (m : Nat) (x : Int), 0 ≤ x → x < specOffset B R m →
      ∃ k, k < m ∧ specOffset B R k ≤ x ∧ x < specOffset B R (k + 1) := by
  intro m
  induction m with
  | zero =>
    intro x h0 hx
    rw [specOffset_zero hR] at hx
    exact absurd h0 (by omega)
  | succ m ih =>
    intro x h0 hx
    by_cases hxm : x < specOffset B R m
    · obtain ⟨k, hk, h1, h2⟩ := ih x h0 hxm
      exact ⟨k, by omega, h1, h2⟩
    · exact ⟨m, by omega, by omega, hx⟩

lemma partsLoop_step_break (de B R : Int) (n i : Nat) (cs : Int)
    (hnc : ¬(cs + (B + (if (i : Int) < R then 1 else 0) - 1) > de))
    (hbr : cs + (B + (if (i : Int) < R then 1 else 0) - 1) + 1 > de) :
    partsLoop de B R (n + 1) i cs =
      [(cs, cs + (B + (if (i : Int) < R then 1 else 0) - 1))] := by
  simp only [partsLoop]
  rw [if_neg hnc, if_pos hbr]

lemma partsLoop_step_cont (de B R : Int) (n i : Nat) (cs : Int)
    (hnc : ¬(cs + (B + (if (i : Int) < R then 1 else 0) - 1) > de))
    (hbr : ¬(cs + (B + (if (i : Int) < R then 1 else 0) - 1) + 1 > de)) :
    partsLoop de B R (n + 1) i cs =
      (cs, cs + (B + (if (i : Int) < R then 1 else 0) - 1)) ::
        partsLoop de B R n (i + 1)
          (cs + (B + (if (i : Int) < R then 1 else 0) - 1) + 1) := by
  simp only [partsLoop]
  rw [if_neg hnc, if_neg hbr]

lemma partsLoop_closed (de B R ds T : Int) (M P : Nat)
    (hB : 0 ≤ B) (hR : 0 ≤ R)
    (hde : de = ds + T - 1)
    (hoffM : specOffset B R M = T)
    (hstep : ∀ k, k < M → specOffset B R k < specOffset B R (k + 1))
    (hMP : M ≤ P) :
    ∀ n i, i + n = P → i < M →
      partsLoop de B R n i (ds + specOffset B R i) =
        (List.range (M - i)).map (fun k =>
          (ds + specOffset B R (i + k),
           ds + specOffset B R (i + k + 1) - 1)) := by
  have hle : ∀ k, k ≤ M → specOffset B R k ≤ T := fun k hk =>
    hoffM ▸ specOffset_mono hB hR hk
  have hlt : ∀ k, k < M → specOffset B R k < T := by
    intro k hk
    calc specOffset B R k ≤ specOffset B R (M - 1) :=
          specOffset_mono hB hR (by omega)
      _ < specOffset B R (M - 1 + 1) := hstep _ (by omega)
      _ ≤ specOffset B R M := specOffset_mono hB hR (by omega)
      _ = T := hoffM
  intro n
  induction n with
  | zero =>
    intro i hiP hiM
    exact absurd hiM (by omega)
  | succ n ih =>
    intro i hiP hiM
    have hval : ds + specOffset B R i +
        (B + (if (i : Int) < R then 1 else 0) - 1) =
        ds + specOffset B R (i + 1) - 1 := by
      rw [specOffset_succ B R hR]
      ring
    have hnc : ¬(ds + specOffset B R i +
        (B + (if (i : Int) < R then 1 else 0) - 1) > de) := by
      rw [hval]
      have := hle (i + 1) (by omega)
      omega
    by_cases hbig : specOffset B R (i + 1) ≥ T
    · have hoff_eq : specOffset B R (i + 1) = T :=
        le_antisymm (hle (i + 1) (by omega)) hbig
      have hMi : M = i + 1 := by
        by_contra hne
        have h2 : i + 1 < M := by omega
        have := hlt (i + 1) h2
        omega
      have hbr : ds + specOffset B R i +
          (B + (if (i : Int) < R then 1 else 0) - 1) + 1 > de := by
        rw [hval]
        omega
      rw [partsLoop_step_break de B R n i _ hnc hbr]
      rw [hMi, show i + 1 - i = 1 from by omega,
        show List.range 1 = [0] from rfl, List.map_cons, List.map_nil]
      have hpair : (ds + specOffset B R i,
          ds + specOffset B R i +
            (B + (if (i : Int) < R then 1 else 0) - 1)) =
          (ds + specOffset B R (i + 0),
           ds + specOffset B R (i + 0 + 1) - 1) := by
        rw [Nat.add_zero, hval]
      rw [hpair]
    · have hibr : i + 1 < M := by
        by_contra hne
        have h2 : M ≤ i + 1 := by omega
        have h3 : specOffset B R M ≤ specOffset B R (i + 1) :=
          specOffset_mono hB hR h2
        omega
      have hbr : ¬(ds + specOffset B R i +
          (B + (if (i : Int) < R then 1 else 0) - 1) + 1 > de) := by
        rw [hval]
        have := hlt (i + 1) hibr
        omega
      rw [partsLoop_step_cont de B R n i _ hnc hbr]
      have hnext : ds + specOffset B R i +
          (B + (if (i : Int) < R then 1 else 0) - 1) + 1 =
          ds + specOffset B R (i + 1) := by
        rw [hval]
        ring
      rw [hnext]
      rw [ih (i + 1) (by omega) hibr]
      rw [show M - i = (M - (i + 1)) + 1 from by omega,
        List.range_succ_eq_map, List.map_cons, List.map_map]
      have hhead : (ds + specOffset B R i,
          ds + specOffset B R i +
            (B + (if (i : Int) < R then 1 else 0) - 1)) =
          (ds + specOffset B R (i + 0),
           ds + specOffset B R (i + 0 + 1) - 1) := by
        rw [Nat.add_zero, hval]
      rw [hhead]
      congr 1
      apply List.map_congr_left
      intro k hk
      simp only [Function.comp_apply, Nat.succ_eq_add_one]
      rw [show i + 1 + k = i + (k + 1) from by omega]

lemma baseDays_nonneg {ds de p : Int} (hds : ds ≤ de) (hp : 0 < p) :
    0 ≤ baseDays ds de p :=
  Int.ediv_nonneg (by unfold totalDays; omega) (le_of_lt hp)

lemma remDays_nonneg {ds de p : Int} (hp : 0 < p) : 0 ≤ remDays ds de p :=
  Int.emod_nonneg _ (ne_of_gt hp)

lemma remDays_lt {ds de p : Int} (hp : 0 < p) : remDays ds de p < p :=
  Int.emod_lt_of_pos _ hp

lemma base_rem_total {ds de p : Int} :
    p * baseDays ds de p + remDays ds de p = totalDays ds de :=
  Int.ediv_add_emod _ _

lemma base_rem_total_cast {ds de p : Int} (hp : 0 < p) :
    ((p.toNat : Nat) : Int) * baseDays ds de p + remDays ds de p =
      totalDays ds de := by
  rw [Int.toNat_of_nonneg (le_of_lt hp)]
  exact base_rem_total

lemma baseDays_zero_rem {ds de p : Int} (h : baseDays ds de p = 0) :
    remDays ds de p = totalDays ds de := by
  have htot := @base_rem_total ds de p
  rw [h, mul_zero, zero_add] at htot
  exact htot

lemma baseDays_zero_of_total_lt {ds de p : Int} (hds : ds ≤ de) (hp : 0 < p)
    (h : totalDays ds de < ((p.toNat : Nat) : Int)) : baseDays ds de p = 0 := by
  by_contra hne
  have hB := baseDays_nonneg hds hp
  have hB1 : 1 ≤ baseDays ds de p := by omega
  have h2 : ((p.toNat : Nat) : Int) * 1 ≤
      ((p.toNat : Nat) : Int) * baseDays ds de p :=
    mul_le_mul_of_nonneg_left hB1 (Int.natCast_nonneg _)
  rw [mul_one] at h2
  have h3 := @base_rem_total_cast ds de _ hp
  have hR := @remDays_nonneg ds de _ hp
  linarith

lemma winCount_pos {ds de p : Int} (hds : ds ≤ de) (hp : 0 < p) :
    1 ≤ winCount ds de p := by
  unfold winCount totalDays
  omega

lemma specOffset_winCount {ds de p : Int} (hds : ds ≤ de) (hp : 0 < p) :
    specOffset (baseDays ds de p) (remDays ds de p) (winCount ds de p) =
      totalDays ds de := by
  have hT1 : (1 : Int) ≤ totalDays ds de := by unfold totalDays; omega
  have hRp := @remDays_lt ds de _ hp
  rcases lt_or_ge (totalDays ds de) (((p.toNat : Nat)) : Int) with hTP | hPT
  · have hB0 := baseDays_zero_of_total_lt hds hp hTP
    have hRT := baseDays_zero_rem hB0
    have hM2 : winCount ds de p = (totalDays ds de).toNat := by
      unfold winCount; omega
    rw [hM2]
    unfold specOffset
    rw [hB0, mul_zero, zero_add, hRT, Int.toNat_of_nonneg (by omega)]
    exact min_self _
  · have hM2 : winCount ds de p = p.toNat := by
      unfold winCount; omega
    rw [hM2]
    unfold specOffset
    rw [min_eq_right (by omega : remDays ds de p ≤ ((p.toNat : Nat) : Int))]
    exact base_rem_total_cast hp

lemma specOffset_step_pos {ds de p : Int} (hds : ds ≤ de) (hp : 0 < p) :
    ∀ k, k < winCount ds de p →
      specOffset (baseDays ds de p) (remDays ds de p) k <
        specOffset (baseDays ds de p) (remDays ds de p) (k + 1) := by
  intro k hk
  have hB := baseDays_nonneg hds hp
  have hR := @remDays_nonneg ds de _ hp
  rw [specOffset_succ _ _ hR]
  by_cases hB1 : 1 ≤ baseDays ds de p
  · by_cases hkR : (k : Int) < remDays ds de p
    · rw [if_pos hkR]; omega
    · rw [if_neg hkR]; omega
  · have hB0 : baseDays ds de p = 0 := by omega
    have hRT := baseDays_zero_rem hB0
    have hMT : winCount ds de p ≤ (totalDays ds de).toNat := by
      unfold winCount; omega
    have hkR : (k : Int) < remDays ds de p := by
      rw [hRT]
      have h2 : k < (totalDays ds de).toNat := lt_of_lt_of_le hk hMT
      omega
    rw [if_pos hkR]
    omega

/-- parse_with_parts, on valid input, produces exactly the windows
described by the spec-side formula. -/
lemma parse_with_parts_eq_spec (ds de p : Int) (hds : ds ≤ de) (hp : 0 < p) :
    parse_with_parts ds de p = some (specWindows ds de p) := by
  have hB := baseDays_nonneg hds hp
  have hR := @remDays_nonneg ds de _ hp
  have hMP : winCount ds de p ≤ p.toNat := by unfold winCount; omega
  have hmain := partsLoop_closed de (baseDays ds de p) (remDays ds de p) ds
    (totalDays ds de) (winCount ds de p) p.toNat hB hR
    (by unfold totalDays; omega) (specOffset_winCount hds hp)
    (specOffset_step_pos hds hp) hMP p.toNat 0 (by omega)
    (by have := winCount_pos hds hp; omega)
  rw [specOffset_zero hR, add_zero] at hmain
  unfold parse_with_parts
  rw [if_neg (not_lt.mpr hds), if_neg (not_le.mpr hp)]
  show some (partsLoop de (baseDays ds de p) (remDays ds de p) p.toNat 0 ds) =
    some (specWindows ds de p)
  rw [hmain]
  congr 1
  unfold specWindows winAt
  rw [Nat.sub_zero]
  apply List.map_congr_left
  intro k hk
  rw [Nat.zero_add]

lemma specWindows_length (ds de p : Int) :
    (specWindows ds de p).length = winCount ds de p := by
  simp [specWindows]

lemma specWindows_getD (ds de p : Int) (k : Nat) (hk : k < winCount ds de p) :
    (specWindows ds de p).getD k (0, 0) = winAt ds de p k := by
  unfold specWindows
  rw [List.getD_eq_getElem?_getD, List.getElem?_map, List.getElem?_range hk]
  rfl

lemma winLen_winAt (ds de p : Int) (hp : 0 < p) (k : Nat) :
    winLen (winAt ds de p k) =
      baseDays ds de p + (if (k : Int) < remDays ds de p then 1 else 0) := by
  unfold winLen winAt
  rw [specOffset_succ _ _ (remDays_nonneg hp)]
  ring

/-! ### Claims about the Window Partitioner -/

/-- C1: on valid input (start ≤ end, parts > 0) the windows produced by
parse_with_parts are contiguous (each start is the previous end plus
one), pairwise non-overlapping, cover the inclusive range exactly, and
their day counts differ by at most one; in particular splitting
2024-01-01..2024-01-10 into 3 parts gives windows of 4, 3 and 3 days. -/
theorem claim_C1 (ds de parts : Int) (ws : List (Int × Int))
    (hds : ds ≤ de) (hp : 0 < parts)
    (hws : parse_with_parts ds de parts = some ws) :
    ((∀ k, k + 1 < ws.length →
        (ws.getD (k + 1) (0, 0)).1 = (ws.getD k (0, 0)).2 + 1) ∧
     (∀ j k, j < k → k < ws.length →
        (ws.getD j (0, 0)).2 < (ws.getD k (0, 0)).1) ∧
     (∀ d : Int, (ds ≤ d ∧ d ≤ de) ↔
        ∃ k, k < ws.length ∧
          (ws.getD k (0, 0)).1 ≤ d ∧ d ≤ (ws.getD k (0, 0)).2) ∧
     (∀ w ∈ ws, ∀ w2 ∈ ws, winLen w - winLen w2 ≤ 1)) ∧
    parse_with_parts (toOrdinal 2024 1 1) (toOrdinal 2024 1 10) 3 =
      some [(toOrdinal 2024 1 1, toOrdinal 2024 1 4),
            (toOrdinal 2024 1 5, toOrdinal 2024 1 7),
            (toOrdinal 2024 1 8, toOrdinal 2024 1 10)] := by
  have hws2 : ws = specWindows ds de parts := by
    have h2 := parse_with_parts_eq_spec ds de parts hds hp
    rw [hws] at h2
    exact Option.some.inj h2
  subst hws2
  have hB := baseDays_nonneg hds hp
  have hR := @remDays_nonneg ds de _ hp
  have hoffM := specOffset_winCount hds hp
  have hT : totalDays ds de = de - ds + 1 := rfl
  refine ⟨⟨?_, ?_, ?_, ?_⟩, by decide⟩
  · intro k hk
    rw [specWindows_length] at hk
    rw [specWindows_getD _ _ _ _ hk, specWindows_getD _ _ _ _ (by omega)]
    unfold winAt
    ring
  · intro j k hjk hk
    rw [specWindows_length] at hk
    rw [specWindows_getD _ _ _ _ (by omega), specWindows_getD _ _ _ _ hk]
    unfold winAt
    have hmono : specOffset (baseDays ds de parts) (remDays ds de parts) (j + 1) ≤
        specOffset (baseDays ds de parts) (remDays ds de parts) k :=
      specOffset_mono hB hR (by omega)
    omega
  · intro d
    rw [specWindows_length]
    constructor
    · rintro ⟨hd1, hd2⟩
      obtain ⟨k, hk, h1, h2⟩ := specOffset_exists_window hR
        (winCount ds de parts) (d - ds) (by omega) (by rw [hoffM]; omega)
      refine ⟨k, hk, ?_, ?_⟩
      · rw [specWindows_getD _ _ _ _ hk]
        show ds + specOffset (baseDays ds de parts) (remDays ds de parts) k ≤ d
        omega
      · rw [specWindows_getD _ _ _ _ hk]
        show d ≤ ds + specOffset (baseDays ds de parts) (remDays ds de parts)
          (k + 1) - 1
        omega
    · rintro ⟨k, hk, h1, h2⟩
      rw [specWindows_getD _ _ _ _ hk] at h1 h2
      have hnn := specOffset_nonneg hB hR k
      have hup : specOffset (baseDays ds de parts) (remDays ds de parts)
          (k + 1) ≤ totalDays ds de :=
        hoffM ▸ specOffset_mono hB hR (by omega)
      unfold winAt at h1 h2
      constructor
      · simp only at h1; omega
      · simp only at h2; omega
  · intro w hw w2 hw2
    unfold specWindows at hw hw2
    obtain ⟨k, hk, rfl⟩ := List.mem_map.mp hw
    obtain ⟨k2, hk2, rfl⟩ := List.mem_map.mp hw2
    rw [winLen_winAt _ _ _ hp, winLen_winAt _ _ _ hp]
    by_cases ha : (k : Int) < remDays ds de parts <;>
      by_cases hb : (k2 : Int) < remDays ds de parts <;>
      simp [ha, hb]

/-- Witness for C1 at the spec's own example: 2024-01-01..2024-01-10
split into 3 parts. -/
theorem claim_C1_witness :
    ((∀ k, k + 1 < ([(toOrdinal 2024 1 1, toOrdinal 2024 1 4),
            (toOrdinal 2024 1 5, toOrdinal 2024 1 7),
            (toOrdinal 2024 1 8, toOrdinal 2024 1 10)] :
            List (Int × Int)).length →
        (([(toOrdinal 2024 1 1, toOrdinal 2024 1 4),
           (toOrdinal 2024 1 5, toOrdinal 2024 1 7),
           (toOrdinal 2024 1 8, toOrdinal 2024 1 10)] :
           List (Int × Int)).getD (k + 1) (0, 0)).1 =
        (([(toOrdinal 2024 1 1, toOrdinal 2024 1 4),
           (toOrdinal 2024 1 5, toOrdinal 2024 1 7),
           (toOrdinal 2024 1 8, toOrdinal 2024 1 10)] :
           List (Int × Int)).getD k (0, 0)).2 + 1) ∧
     (∀ j k, j < k → k < ([(toOrdinal 2024 1 1, toOrdinal 2024 1 4),
            (toOrdinal 2024 1 5, toOrdinal 2024 1 7),
            (toOrdinal 2024 1 8, toOrdinal 2024 1 10)] :
            List (Int × Int)).length →
        (([(toOrdinal 2024 1 1, toOrdinal 2024 1 4),
           (toOrdinal 2024 1 5, toOrdinal 2024 1 7),
           (toOrdinal 2024 1 8, toOrdinal 2024 1 10)] :
           List (Int × Int)).getD j (0, 0)).2 <
        (([(toOrdinal 2024 1 1, toOrdinal 2024 1 4),
           (toOrdinal 2024 1 5, toOrdinal 2024 1 7),
           (toOrdinal 2024 1 8, toOrdinal 2024 1 10)] :
           List (Int × Int)).getD k (0, 0)).1) ∧
     (∀ d : Int, (toOrdinal 2024 1 1 ≤ d ∧ d ≤ toOrdinal 2024 1 10) ↔
        ∃ k, k < ([(toOrdinal 2024 1 1, toOrdinal 2024 1 4),
            (toOrdinal 2024 1 5, toOrdinal 2024 1 7),
            (toOrdinal 2024 1 8, toOrdinal 2024 1 10)] :
            List (Int × Int)).length ∧
          (([(toOrdinal 2024 1 1, toOrdinal 2024 1 4),
             (toOrdinal 2024 1 5, toOrdinal 2024 1 7),
             (toOrdinal 2024 1 8, toOrdinal 2024 1 10)] :
             List (Int × Int)).getD k (0, 0)).1 ≤ d ∧
          d ≤ (([(toOrdinal 2024 1 1, toOrdinal 2024 1 4),
             (toOrdinal 2024 1 5, toOrdinal 2024 1 7),
             (toOrdinal 2024 1 8, toOrdinal 2024 1 10)] :
             List (Int × Int)).getD k (0, 0)).2) ∧
     (∀ w ∈ ([(toOrdinal 2024 1 1, toOrdinal 2024 1 4),
            (toOrdinal 2024 1 5, toOrdinal 2024 1 7),
            (toOrdinal 2024 1 8, toOrdinal 2024 1 10)] :
            List (Int × Int)),
        ∀ w2 ∈ ([(toOrdinal 2024 1 1, toOrdinal 2024 1 4),
            (toOrdinal 2024 1 5, toOrdinal 2024 1 7),
            (toOrdinal 2024 1 8, toOrdinal 2024 1 10)] :
            List (Int × Int)), winLen w - winLen w2 ≤ 1)) ∧
    parse_with_parts (toOrdinal 2024 1 1) (toOrdinal 2024 1 10) 3 =
      some [(toOrdinal 2024 1 1, toOrdinal 2024 1 4),
            (toOrdinal 2024 1 5, toOrdinal 2024 1 7),
            (toOrdinal 2024 1 8, toOrdinal 2024 1 10)] :=
  claim_C1 (toOrdinal 2024 1 1) (toOrdinal 2024 1 10) 3
    [(toOrdinal 2024 1 1, toOrdinal 2024 1 4),
     (toOrdinal 2024 1 5, toOrdinal 2024 1 7),
     (toOrdinal 2024 1 8, toOrdinal 2024 1 10)]
    (by decide) (by decide) (by decide)

/-- C2 counterexample: with a one-day range and parts = 2 — a valid
input — parse_with_parts produces one window, not parts = 2 windows: the
loop breaks as soon as the next start would pass end_date. -/
theorem claim_C2_counterexample :
    parse_with_parts (toOrdinal 2024 1 1) (toOrdinal 2024 1 1) 2 =
      some [(toOrdinal 2024 1 1, toOrdinal 2024 1 1)] ∧
    ([(toOrdinal 2024 1 1, toOrdinal 2024 1 1)] : List (Int × Int)).length ≠ 2 ∧
    toOrdinal 2024 1 1 ≤ toOrdinal 2024 1 1 ∧ (0 : Int) < 2 := by decide

/-- C2 as amended: on valid input parse_with_parts produces exactly
min(parts, total_days) windows — which is exactly parts whenever
total_days ≥ parts — matching the closed-form spec windows: the k-th
window spans base + 1 days when k < remainder and base days otherwise,
the first window starts at start_date, and the last produced window ends
exactly at end_date. -/
theorem claim_C2 (ds de parts : Int) (hds : ds ≤ de) (hp : 0 < parts) :
    parse_with_parts ds de parts = some (specWindows ds de parts) ∧
    (specWindows ds de parts).length = winCount ds de parts ∧
    (∀ k, k < winCount ds de parts →
      winLen (winAt ds de parts k) =
        baseDays ds de parts +
          (if (k : Int) < remDays ds de parts then 1 else 0)) ∧
    1 ≤ winCount ds de parts ∧
    (winAt ds de parts 0).1 = ds ∧
    (winAt ds de parts (winCount ds de parts - 1)).2 = de := by
  have hR := @remDays_nonneg ds de _ hp
  have hM1 := winCount_pos hds hp
  have hoffM := specOffset_winCount hds hp
  refine ⟨parse_with_parts_eq_spec ds de parts hds hp,
    specWindows_length ds de parts,
    fun k _ => winLen_winAt ds de parts hp k, hM1, ?_, ?_⟩
  · show ds + specOffset (baseDays ds de parts) (remDays ds de parts) 0 = ds
    rw [specOffset_zero hR]
    ring
  · show ds + specOffset (baseDays ds de parts) (remDays ds de parts)
      (winCount ds de parts - 1 + 1) - 1 = de
    rw [show winCount ds de parts - 1 + 1 = winCount ds de parts from by omega,
      hoffM]
    unfold totalDays
    ring

/-- Witness for C2 at the 10-day, 3-part example. -/
theorem claim_C2_witness :
    parse_with_parts (toOrdinal 2024 1 1) (toOrdinal 2024 1 10) 3 =
      some (specWindows (toOrdinal 2024 1 1) (toOrdinal 2024 1 10) 3) ∧
    (specWindows (toOrdinal 2024 1 1) (toOrdinal 2024 1 10) 3).length =
      winCount (toOrdinal 2024 1 1) (toOrdinal 2024 1 10) 3 ∧
    (∀ k, k < winCount (toOrdinal 2024 1 1) (toOrdinal 2024 1 10) 3 →
      winLen (winAt (toOrdinal 2024 1 1) (toOrdinal 2024 1 10) 3 k) =
        baseDays (toOrdinal 2024 1 1) (toOrdinal 2024 1 10) 3 +
          (if (k : Int) <
              remDays (toOrdinal 2024 1 1) (toOrdinal 2024 1 10) 3
            then 1 else 0)) ∧
    1 ≤ winCount (toOrdinal 2024 1 1) (toOrdinal 2024 1 10) 3 ∧
    (winAt (toOrdinal 2024 1 1) (toOrdinal 2024 1 10) 3 0).1 =
      toOrdinal 2024 1 1 ∧
    (winAt (toOrdinal 2024 1 1) (toOrdinal 2024 1 10) 3
      (winCount (toOrdinal 2024 1 1) (toOrdinal 2024 1 10) 3 - 1)).2 =
      toOrdinal 2024 1 10 :=
  claim_C2 (toOrdinal 2024 1 1) (toOrdinal 2024 1 10) 3 (by decide) (by decide)

/-- C8: on an inverted date range or a non-positive part count,
parse_with_parts reports the configuration error and returns: no windows
are produced, no window is walked, no fetch is issued, and the store is
left unchanged. -/
theorem claim_C8 (ds de parts : Int) (fetch : Int × Int → Nat → Response)
    (excluded : List Nat) (db : List StoredRecord)
    (h : de < ds ∨ parts ≤ 0) :
    parse_with_parts ds de parts = none ∧
    parse_with_parts_run fetch excluded ds de parts db = ⟨db, []⟩ := by
  have hnone : parse_with_parts ds de parts = none := by
    unfold parse_with_parts
    rcases h with h | h
    · rw [if_pos h]
    · by_cases h2 : de < ds
      · rw [if_pos h2]
      · rw [if_neg h2, if_pos h]
  refine ⟨hnone, ?_⟩
  unfold parse_with_parts_run
  rw [hnone]

/-- Witness for C8 at a concrete inverted range. -/
theorem claim_C8_witness :
    parse_with_parts (toOrdinal 2024 1 2) (toOrdinal 2024 1 1) 5 = none ∧
    parse_with_parts_run (fun _ _ => ⟨[], none⟩) EXCLUDED_EMPLOYEE_IDS
      (toOrdinal 2024 1 2) (toOrdinal 2024 1 1) 5 [] = ⟨[], []⟩ :=
  claim_C8 (toOrdinal 2024 1 2) (toOrdinal 2024 1 1) 5
    (fun _ _ => ⟨[], none⟩) EXCLUDED_EMPLOYEE_IDS [] (Or.inl (by decide))

end HHParser
